import Mathlib

/-!
Shallow embedding of the catalog data model of `nbodykit/base/catalog.py`:
the `CatalogSourceBase` / `CatalogSource` layer, its column-resolution
machinery (`find_columns`, `find_column`), column get/set, the shared
construction path `_from_columns`, `copy`, and `get_catalog_subset`.

Arrays (numpy / dask) are modelled by their denotation: a dtype together
with the list of element values.  Forcing a deferred dask array through
`CatalogSource.compute` denotes the identity on that value (caching is an
optimization and does not change results).  Python dicts are modelled as
association lists with Python's insertion-order update semantics.  The
per-object identity of the mutable `attrs` dictionaries is modelled with an
explicit store of attribute maps: each catalog holds a reference
(`attrsRef`) into the store, and every construction path allocates a fresh
empty map (the source allocates it lazily on first access of the `attrs`
property, which is observationally the same).
-/

set_option autoImplicit false

namespace NBodyKit

/-- Element dtypes; `boolDT` is numpy dtype `?`. -/
inductive DType
  | boolDT
  | intDT
  | floatDT
deriving DecidableEq, Repr

/-- A scalar element value. -/
inductive Elem
  | eBool (b : Bool)
  | eInt (n : Int)
  | eFloat (q : Rat)
deriving DecidableEq, Repr

/-- The numpy dtype of a scalar. -/
def Elem.dtype : Elem → DType
  | .eBool _ => .boolDT
  | .eInt _ => .intDT
  | .eFloat _ => .floatDT

/-- Denotation of a one-dimensional numpy/dask array: its dtype and the
list of its element values. -/
structure DArray where
  dtype : DType
  data : List Elem
deriving DecidableEq, Repr

/-- `index.sum()` on a boolean numpy array: the number of `True` entries. -/
def DArray.countTrue (a : DArray) : Nat :=
  (a.data.filter (fun e => e = Elem.eBool true)).length

/-- Boolean-mask selection `a[mask]`: keep the rows of `a` at the positions
where the mask holds `True`, in their original order. -/
def applyMask (a : DArray) (mask : DArray) : DArray :=
  { dtype := a.dtype,
    data := (a.data.zip mask.data).filterMap
      (fun p => if p.2 = Elem.eBool true then some p.1 else none) }

/-- Modelled from the spec: `ConstantArray` (defined in
`nbodykit/transform.py`, which is not under `src/`) is the
materialize-from-constant Lazy Array Handle primitive; it broadcasts a
scalar value to a constant array of the given length. -/
def ConstantArray (v : Elem) (size : Nat) : DArray :=
  { dtype := v.dtype, data := List.replicate size v }

/-- Python exceptions raised by the embedded code, by exception class. -/
inductive Err
  | keyError (msg : String)
  | valueError (msg : String)
  | assertionError (msg : String)
  | attributeError (msg : String)
  | typeError (msg : String)
deriving DecidableEq, Repr

/-! ### Python dicts as association lists -/

section Dict

variable {α : Type}

/-- `d[k] = v` on a Python dict: replace in place if the key is present
(keeping its insertion position), otherwise append at the end. -/
def dictSet : List (String × α) → String → α → List (String × α)
  | [], k, v => [(k, v)]
  | (k₀, v₀) :: rest, k, v =>
    if k₀ = k then (k, v) :: rest else (k₀, v₀) :: dictSet rest k v

/-- `list(d)` on a Python dict: its keys in insertion order. -/
def dictKeys (d : List (String × α)) : List String := d.map Prod.fst

/-- `d.update(entries)`: assign every entry of `entries` into `d`, in order. -/
def dictUpdate (d : List (String × α)) (entries : List (String × α)) :
    List (String × α) :=
  entries.foldl (fun acc kv => dictSet acc kv.1 kv.2) d

end Dict

/-- Python string comparison, on the character lists of the two strings:
big-endian lexicographic by code point. -/
def pyStrLeAux : List Char → List Char → Bool
  | [], _ => true
  | _ :: _, [] => false
  | a :: as, b :: bs =>
    if a = b then pyStrLeAux as bs else decide (a.toNat < b.toNat)

def pyStrLe (a b : String) : Bool := pyStrLeAux a.data b.data

/-- The ordering used by Python's `sorted` on column names. -/
def pyLe (a b : String) : Prop := pyStrLe a b = true

instance decPyLe : DecidableRel pyLe := fun a b =>
  inferInstanceAs (Decidable (pyStrLe a b = true))

/-- `sorted(set(xs))` on a list of strings: duplicates removed, then sorted
in ascending lexicographic order. -/
def pySortedSet (xs : List String) : List String :=
  List.insertionSort pyLe xs.dedup

/-! ### The reflection-based column registry -/

/-- The body of a hard-column getter.  Every hard column declared in the
source (`Selection`, `Weight`, `Value`) returns
`ConstantArray(v, self.size)`. -/
inductive Getter
  | constantArray (v : Elem)
deriving DecidableEq, Repr

/-- A member of a class `__dict__`: either untagged, or a getter carrying a
`column_name` attribute (set by the `@column` decorator). -/
inductive MemberVal
  | plain
  | columnGetter (column_name : String) (g : Getter)
deriving DecidableEq, Repr

mutual

/-- A Python class: its own `__dict__` (in declaration order) and its
direct base classes (`__bases__`, in order). -/
inductive PyClass
  | mk (members : List (String × MemberVal)) (bases : PyClassList)

/-- A list of base classes (mutual with `PyClass` so that the reflection
walk below is structurally recursive). -/
inductive PyClassList
  | nil
  | cons (b : PyClass) (bs : PyClassList)

end

def PyClass.members : PyClass → List (String × MemberVal)
  | .mk ms _ => ms

def PyClass.bases : PyClass → PyClassList
  | .mk _ bs => bs

def PyClassList.toList : PyClassList → List PyClass
  | .nil => []
  | .cons b bs => b :: bs.toList

/-- The `column_name` tag of a class-dict entry, when present. -/
def memberColName (kv : String × MemberVal) : Option String :=
  match kv.2 with
  | .columnGetter n _ => some n
  | .plain => none

mutual

/-- `find_columns(cls)`: collect the `column_name` of every tagged member
of the class dict, recursively add the base classes' columns, and return
`list(sorted(set(...)))`. -/
def find_columns : PyClass → List String
  | .mk members bases =>
    pySortedSet (members.filterMap memberColName ++ find_columns_bases bases)

/-- The concatenation of `find_columns` over a list of base classes. -/
def find_columns_bases : PyClassList → List String
  | .nil => []
  | .cons b bs => find_columns b ++ find_columns_bases bs

end

/-- The scan of a class `__dict__` performed by `find_column`: the first
member whose `column_name` equals the requested name. -/
def scanMembers : List (String × MemberVal) → String → Option Getter
  | [], _ => none
  | (_, .columnGetter n g) :: rest, name =>
    if n = name then some g else scanMembers rest name
  | (_, .plain) :: rest, name => scanMembers rest name

mutual

/-- `find_column(cls, name)`: first search the class dict, then the base
classes in order (failures in a base are swallowed and the next base is
tried); `none` models the final `AttributeError`. -/
def find_column : PyClass → String → Option Getter
  | .mk members bases, name =>
    match scanMembers members name with
    | some g => some g
    | none => find_column_bases bases name

/-- `find_column` tried over a list of base classes, first success wins. -/
def find_column_bases : PyClassList → String → Option Getter
  | .nil, _ => none
  | .cons b bs, name =>
    match find_column b name with
    | some g => some g
    | none => find_column_bases bs name

end

/-! ### Catalogs -/

/-- The MPI communicator collaborator, reduced to what the embedded code
uses: `allreduce` of the local size is the local size plus the total
contributed by the other ranks. -/
structure Comm where
  otherRanksSum : Nat
deriving DecidableEq, Repr

def Comm.allreduceSum (c : Comm) (n : Nat) : Nat := n + c.otherRanksSum

/-- An attribute (meta-data) value. -/
inductive AttrVal
  | str (s : String)
  | int (n : Int)
  | boolV (b : Bool)
deriving DecidableEq, Repr

/-- A Python dict of attributes. -/
abbrev AttrMap := List (String × AttrVal)

/-- The store of attribute dictionaries; a catalog refers to its own
`_attrs` dict by its index in the store. -/
abbrev Store := List AttrMap

def storeGet (st : Store) (r : Nat) : AttrMap := st.getD r []

def storeSet (st : Store) (r : Nat) (m : AttrMap) : Store := st.set r m

/-- A `CatalogSourceBase` / `CatalogSource` instance.  `size = none` models
`size is NotImplemented`. -/
structure Catalog where
  cls : PyClass
  size : Option Nat
  csize : Option Nat
  overrides : List (String × DArray)
  attrsRef : Nat
  use_cache : Bool
  comm : Comm

/-- `self.hardcolumns` (the memoization in `_hardcolumns` is elided). -/
def Catalog.hardcolumns (c : Catalog) : List String := find_columns c.cls

/-- `self.columns`: `sorted(set(hardcolumns + list(overrides)))`. -/
def Catalog.columns (c : Catalog) : List String :=
  pySortedSet (c.hardcolumns ++ dictKeys c.overrides)

/-- `CatalogSource.compute`: forcing a dask array yields its value; the
optional cache only affects latency, never results. -/
def Catalog.compute (_c : Catalog) (a : DArray) : DArray := a

/-- A `ColumnAccessor`: a dask array together with a back-reference to the
owning catalog and a fresh (empty) per-column `attrs` dict. -/
structure ColumnAccessor where
  catalog : Catalog
  arr : DArray
  attrs : AttrMap

/-- Materializing a column accessor delegates to the owning catalog. -/
def ColumnAccessor.computeIt (acc : ColumnAccessor) : DArray :=
  acc.catalog.compute acc.arr

/-- Evaluating a hard-column getter on `self`; every getter in the source
returns `ConstantArray(v, self.size)`, which needs a known size. -/
def applyGetter (c : Catalog) : Getter → Except Err DArray
  | .constantArray v =>
    match c.size with
    | some n => .ok (ConstantArray v n)
    | none => .error (.typeError "size is NotImplemented")

/-- `get_hardcolumn(col) = find_column(self.__class__, col)(self)`. -/
def Catalog.get_hardcolumn (c : Catalog) (col : String) : Except Err DArray :=
  match find_column c.cls col with
  | some g => applyGetter c g
  | none =>
    .error (.attributeError ("unable to find column " ++ col ++ " for class"))

/-- String indexing `self[sel]` (`CatalogSourceBase.__getitem__`): the
override map wins, else a hard column, else `KeyError`.  The values stored
in the override map are dask arrays produced by `make_column`, never
callables, so the `callable(r)` branch is inert for them. -/
def Catalog.getItem (c : Catalog) (sel : String) : Except Err ColumnAccessor :=
  match c.overrides.lookup sel with
  | some r => .ok { catalog := c, arr := r, attrs := [] }
  | none =>
    if sel ∈ c.hardcolumns then
      (c.get_hardcolumn sel).map
        (fun r => { catalog := c, arr := r, attrs := [] })
    else
      .error (.keyError ("column " ++ sel ++
        " is not defined in this source; try adding column via source[column] = data"))

/-- `CatalogSourceBase.make_column`: dask arrays pass through, a
`ColumnAccessor` is unwrapped to its dask array; both are the identity on
the array's denotation. -/
def make_column (a : DArray) : DArray := a

/-- `CatalogSourceBase.__setitem__`: write `make_column(value)` into the
override map, unconditionally. -/
def Catalog.baseSetItem (c : Catalog) (col : String) (value : DArray) :
    Catalog :=
  { c with overrides := dictSet c.overrides col (make_column value) }

/-- A value assigned to a column: either a scalar or an array. -/
inductive SetValue
  | scalar (v : Elem)
  | array (a : DArray)
deriving DecidableEq, Repr

/-- `CatalogSource.__setitem__`: a scalar is broadcast with
`ConstantArray(value, self.size)` (an assertion failure if the size is
`NotImplemented`); when the size is known the array length is asserted to
match; only then is the base-class write performed.  The second component
is the state of the catalog after the call, so a failed call returns the
unchanged catalog. -/
def CatalogSource.setItem (c : Catalog) (col : String) (value : SetValue) :
    Option Err × Catalog :=
  let broadcast : Except Err DArray :=
    match value with
    | .scalar s =>
      match c.size with
      | none =>
        .error (.assertionError "size is not implemented! cannot set scalar array")
      | some n => .ok (ConstantArray s n)
    | .array a => .ok a
  match broadcast with
  | .error e => (some e, c)
  | .ok a =>
    match c.size with
    | some n =>
      if a.data.length = n then (none, c.baseSetItem col a)
      else
        (some (.assertionError
          ("error setting column, data must be array of size " ++ toString n)), c)
    | none => (none, c.baseSetItem col a)

/-- `update_csize`: allreduce the local size across ranks. -/
def Catalog.update_csize (c : Catalog) : Except Err Catalog :=
  match c.size with
  | none =>
    .error (.valueError "size cannot be NotImplemented when trying to compute collective size csize")
  | some n => .ok { c with csize := some (c.comm.allreduceSum n) }

/-- The class objects of the source: `object`, `CatalogSourceBase` (no
tagged members) and `CatalogSource` with its three `@column`-decorated
getters `Selection`, `Weight` and `Value`. -/
def objectCls : PyClass := .mk [] .nil

def CatalogSourceBaseCls : PyClass := .mk [] (.cons objectCls .nil)

def CatalogSourceCls : PyClass :=
  .mk
    [("Selection", .columnGetter "Selection" (.constantArray (.eBool true))),
     ("Weight", .columnGetter "Weight" (.constantArray (.eFloat 1))),
     ("Value", .columnGetter "Value" (.constantArray (.eFloat 1)))]
    (.cons CatalogSourceBaseCls .nil)

/-- The `for name in columns: self[name] = columns[name]` loop of
`_from_columns`; the first assertion failure propagates. -/
def setColumnsE (c : Catalog) : List (String × DArray) → Except Err Catalog
  | [] => .ok c
  | (name, a) :: rest =>
    match CatalogSource.setItem c name (.array a) with
    | (none, next) => setColumnsE next rest
    | (some e, _) => .error e

/-- `CatalogSource._from_columns(size, comm, use_cache, **columns)`: build
a bare `CatalogSource` (fresh empty `attrs` dict, empty override map) with
`_size = size`, run `CatalogSource.__init__` (which computes `csize` when
the size is known), then assign every provided column through
`CatalogSource.__setitem__`. -/
def CatalogSource.from_columns (st : Store) (size : Option Nat) (comm : Comm)
    (use_cache : Bool) (columns : List (String × DArray)) :
    Except Err (Store × Catalog) :=
  let c0 : Catalog :=
    { cls := CatalogSourceCls, size := size, csize := none, overrides := [],
      attrsRef := st.length, use_cache := use_cache, comm := comm }
  let st1 : Store := st ++ [[]]
  let init : Except Err Catalog :=
    match size with
    | some _ => c0.update_csize
    | none => .ok c0
  match init with
  | .error e => .error e
  | .ok c1 =>
    match setColumnsE c1 columns with
    | .error e => .error e
    | .ok c2 => .ok (st1, c2)

/-- `toret.attrs.update(entries)`: mutate the dict the catalog's `attrs`
property refers to. -/
def attrsUpdate (st : Store) (c : Catalog) (entries : AttrMap) : Store :=
  storeSet st c.attrsRef (dictUpdate (storeGet st c.attrsRef) entries)

/-- A single user mutation `c.attrs[k] = v` of a catalog's attribute dict. -/
def attrsSetKey (st : Store) (c : Catalog) (k : String) (v : AttrVal) :
    Store :=
  storeSet st c.attrsRef (dictSet (storeGet st c.attrsRef) k v)

/-- Reading `c.attrs[k]`. -/
def attrsLookup (st : Store) (c : Catalog) (k : String) : Option AttrVal :=
  (storeGet st c.attrsRef).lookup k

/-- The dict comprehension `{col: parent[col][index] for col in parent}` of
`get_catalog_subset`, over the given column names. -/
def subsetData (parent : Catalog) (index : DArray) :
    List String → Except Err (List (String × DArray))
  | [] => .ok []
  | col :: rest => do
    let acc ← parent.getItem col
    let tail ← subsetData parent index rest
    .ok ((col, applyMask acc.arr index) :: tail)

/-- The dict comprehension `{col: self[col] for col in cols}` used by
`copy` and by column-subset indexing. -/
def copyData (c : Catalog) :
    List String → Except Err (List (String × DArray))
  | [] => .ok []
  | col :: rest => do
    let acc ← c.getItem col
    let tail ← copyData c rest
    .ok ((col, acc.arr) :: tail)

/-- `get_catalog_subset(parent, index)`: a deferred index has already been
forced to its value (forcing is the identity on the denotation) and a list
already converted to an array; validate the length against `len(parent)`
(which needs a known size) and the boolean dtype, take the new size to be
the `True` count, mask every visible column, build the result through
`_from_columns`, and copy the parent's `attrs` onto it. -/
def get_catalog_subset (st : Store) (parent : Catalog) (index : DArray) :
    Except Err (Store × Catalog) :=
  match parent.size with
  | none => .error (.typeError "object of type NotImplementedType has no len")
  | some n =>
    if index.data.length ≠ n then
      .error (.valueError ("slice index has length " ++
        toString index.data.length ++ "; should be " ++ toString n))
    else if index.dtype ≠ DType.boolDT then
      .error (.valueError "index used to slice CatalogSource must be boolean and array-like")
    else do
      let size := index.countTrue
      let data ← subsetData parent index parent.columns
      let (st1, toret) ←
        CatalogSource.from_columns st (some size) parent.comm
          parent.use_cache data
      .ok (attrsUpdate st1 toret (storeGet st1 parent.attrsRef), toret)

/-- The result of `CatalogSource.copy`: either a catalog, or an exception
object returned (not raised) as the value of the call. -/
inductive CopyResult
  | catalog (c : Catalog)
  | exceptionObject (e : Err)

/-- `CatalogSource.copy`: when the size is `NotImplemented` the source
executes `return ValueError(...)` — the exception object is the return
value; otherwise every visible column is rewired onto a `_from_columns`
catalog and the `attrs` are copied over. -/
def CatalogSource.copy (st : Store) (c : Catalog) :
    Except Err (Store × CopyResult) :=
  match c.size with
  | none =>
    .ok (st, .exceptionObject (.valueError
      "cannot copy a CatalogSource that does not have size implemented"))
  | some n => do
    let data ← copyData c c.columns
    let (st1, toret) ←
      CatalogSource.from_columns st (some n) c.comm c.use_cache data
    .ok (attrsUpdate st1 toret (storeGet st1 c.attrsRef), .catalog toret)

/-- Column-subset indexing `self[sel]` for a list of column names
(`CatalogSourceBase.__getitem__`, list-of-strings branch): invalid names
raise `KeyError`, otherwise the selected columns are rewired onto a
`_from_columns` catalog of the same size and the `attrs` are copied over. -/
def Catalog.getItemColumns (st : Store) (c : Catalog) (sel : List String) :
    Except Err (Store × Catalog) :=
  let invalid := sel.filter (fun s => !(c.columns.contains s))
  if invalid = [] then do
    let data ← copyData c sel
    let (st1, toret) ←
      CatalogSource.from_columns st c.size c.comm c.use_cache data
    .ok (attrsUpdate st1 toret (storeGet st1 c.attrsRef), toret)
  else
    .error (.keyError ("cannot select subset of columns from CatalogSource due to invalid columns: "
      ++ String.intercalate " " invalid))

/-- The class invariant maintained by `CatalogSource.__setitem__`: every
override column is an array whose length is the local size.  Every catalog
reachable through the public API satisfies it, since the only write path
asserts the length. -/
def Catalog.OverridesSized (c : Catalog) (n : Nat) : Prop :=
  ∀ p ∈ c.overrides, (Prod.snd p).data.length = n

instance decOverridesSized (c : Catalog) (n : Nat) :
    Decidable (c.OverridesSized n) :=
  inferInstanceAs (Decidable (∀ p ∈ c.overrides, (Prod.snd p).data.length = n))

/-! ### Concrete fixtures used by the witnesses -/

def testComm : Comm := { otherRanksSum := 0 }

/-- A two-row `CatalogSource` with one override column `Mass` and its
attribute dict stored at slot 0 of `testStore`. -/
def testCat : Catalog :=
  { cls := CatalogSourceCls, size := some 2, csize := some 2,
    overrides :=
      [("Mass", { dtype := DType.intDT, data := [Elem.eInt 10, Elem.eInt 20] })],
    attrsRef := 0, use_cache := false, comm := testComm }

/-- A four-row `CatalogSource` with no override columns. -/
def testCat4 : Catalog :=
  { cls := CatalogSourceCls, size := some 4, csize := some 4, overrides := [],
    attrsRef := 0, use_cache := false, comm := testComm }

/-- A `CatalogSource` whose `size` is still `NotImplemented`. -/
def testCatNoSize : Catalog :=
  { cls := CatalogSourceCls, size := none, csize := none, overrides := [],
    attrsRef := 0, use_cache := false, comm := testComm }

def testStore : Store := [[("BoxSize", AttrVal.int 100)]]

def testMask : DArray :=
  { dtype := DType.boolDT, data := [Elem.eBool true, Elem.eBool false] }

def wArr : DArray := { dtype := DType.intDT, data := [Elem.eInt 5, Elem.eInt 7] }

/-- A boolean mask that is too short for `testCat`. -/
def shortMask : DArray := { dtype := DType.boolDT, data := [Elem.eBool true] }

/-- The catalog produced by subsetting `testCat` with `testMask`. -/
def testSub : Catalog :=
  { cls := CatalogSourceCls, size := some 1, csize := some 1,
    overrides :=
      [("Mass", { dtype := DType.intDT, data := [Elem.eInt 10] }),
       ("Selection", { dtype := DType.boolDT, data := [Elem.eBool true] }),
       ("Value", { dtype := DType.floatDT, data := [Elem.eFloat 1] }),
       ("Weight", { dtype := DType.floatDT, data := [Elem.eFloat 1] })],
    attrsRef := 1, use_cache := false, comm := testComm }

/-- The store produced by subsetting `testCat` with `testMask` against
`testStore`. -/
def testStoreF : Store :=
  [[("BoxSize", AttrVal.int 100)], [("BoxSize", AttrVal.int 100)]]

/-! ### Helper lemmas: dictionaries -/

theorem lookup_dictSet_self {α : Type} (d : List (String × α)) (k : String)
    (v : α) : (dictSet d k v).lookup k = some v := by
  induction d with
  | nil => simp [dictSet, List.lookup]
  | cons p rest ih =>
    obtain ⟨k₀, v₀⟩ := p
    by_cases h : k₀ = k
    · subst h; simp [dictSet, List.lookup]
    · simp only [dictSet, if_neg h, List.lookup]
      rw [show (k == k₀) = false by simpa using fun hk => h hk.symm]
      exact ih

theorem lookup_dictSet_ne {α : Type} (d : List (String × α)) (k k₀ : String)
    (v : α) (h : k₀ ≠ k) : (dictSet d k v).lookup k₀ = d.lookup k₀ := by
  induction d with
  | nil =>
    simp only [dictSet, List.lookup]
    rw [show (k₀ == k) = false by simpa using h]
  | cons p rest ih =>
    obtain ⟨k₁, v₁⟩ := p
    by_cases h₁ : k₁ = k
    · simp only [dictSet, if_pos h₁, List.lookup]
      rw [show (k₀ == k) = false by simpa using h,
          show (k₀ == k₁) = false by rw [h₁]; simpa using h]
    · simp only [dictSet, if_neg h₁, List.lookup]
      cases hbe : (k₀ == k₁) with
      | true => rfl
      | false => exact ih

theorem mem_dictKeys_iff_lookup_isSome {α : Type} (d : List (String × α))
    (k : String) : k ∈ dictKeys d ↔ (d.lookup k).isSome := by
  induction d with
  | nil => simp [dictKeys, List.lookup]
  | cons p rest ih =>
    obtain ⟨k₀, v₀⟩ := p
    by_cases h : k = k₀
    · subst h; simp [dictKeys, List.lookup]
    · simp only [dictKeys, List.map_cons, List.mem_cons, List.lookup]
      rw [show (k == k₀) = false by simpa using h]
      simp only [h, false_or]
      exact ih

theorem lookup_mem {α : Type} {d : List (String × α)} {k : String} {v : α}
    (h : d.lookup k = some v) : (k, v) ∈ d := by
  induction d with
  | nil => simp [List.lookup] at h
  | cons p rest ih =>
    obtain ⟨k₀, v₀⟩ := p
    by_cases hk : k = k₀
    · subst hk
      simp only [List.lookup, beq_self_eq_true] at h
      cases h
      exact List.mem_cons_self _ _
    · simp only [List.lookup] at h
      rw [show (k == k₀) = false by simpa using hk] at h
      exact List.mem_cons_of_mem _ (ih h)

theorem mem_dictKeys_dictSet {α : Type} (d : List (String × α)) (k x : String)
    (v : α) : x ∈ dictKeys (dictSet d k v) ↔ x = k ∨ x ∈ dictKeys d := by
  induction d with
  | nil => simp [dictSet, dictKeys]
  | cons p rest ih =>
    obtain ⟨k₀, v₀⟩ := p
    by_cases h : k₀ = k
    · subst h; simp [dictSet, dictKeys]
    · simp only [dictSet, if_neg h, dictKeys, List.map_cons, List.mem_cons] at *
      rw [ih]
      tauto

theorem lookup_dictUpdate {α : Type} (m : List (String × α)) :
    ∀ (d : List (String × α)) (key : String),
    (dictUpdate d m).lookup key = (m.reverse.lookup key).or (d.lookup key) := by
  induction m with
  | nil => intro d key; simp [dictUpdate, List.lookup]
  | cons kv m ih =>
    intro d key
    obtain ⟨k, v⟩ := kv
    show (dictUpdate (dictSet d k v) m).lookup key = _
    rw [ih]
    simp only [List.reverse_cons, List.lookup_append, Option.or_assoc]
    congr 1
    by_cases hk : key = k
    · subst hk
      simp [List.lookup, lookup_dictSet_self]
    · rw [lookup_dictSet_ne _ _ _ _ hk]
      simp only [List.lookup]
      rw [show (key == k) = false by simpa using hk]
      simp

theorem lookup_reverse_of_nodupKeys {α : Type} (m : List (String × α))
    (h : (m.map Prod.fst).Nodup) (key : String) :
    m.reverse.lookup key = m.lookup key := by
  induction m with
  | nil => simp
  | cons kv m ih =>
    obtain ⟨k, v⟩ := kv
    simp only [List.map_cons, List.nodup_cons] at h
    simp only [List.reverse_cons, List.lookup_append, List.lookup]
    by_cases hk : key = k
    · subst hk
      have hnone : m.reverse.lookup key = none := by
        cases hl : m.reverse.lookup key with
        | none => rfl
        | some w =>
          exfalso
          have : (key, w) ∈ m.reverse := lookup_mem hl
          exact h.1 (List.mem_map_of_mem Prod.fst (List.mem_reverse.1 this))
      simp [hnone]
    · rw [ih h.2]
      rw [show (key == k) = false by simpa using hk]
      cases m.lookup key <;> simp

/-! ### Helper lemmas: `pySortedSet` -/

theorem pyStrLeAux_total :
    ∀ as bs, pyStrLeAux as bs = true ∨ pyStrLeAux bs as = true
  | [], _ => Or.inl rfl
  | _ :: _, [] => Or.inr rfl
  | a :: as, b :: bs => by
    by_cases hab : a = b
    · subst hab
      simp only [pyStrLeAux, if_pos rfl]
      exact pyStrLeAux_total as bs
    · rcases Nat.lt_trichotomy a.toNat b.toNat with h | h | h
      · left; simp [pyStrLeAux, hab, h]
      · exact absurd (Char.ext (UInt32.ext h)) hab
      · right; simp [pyStrLeAux, Ne.symm hab, h]

theorem pyStrLeAux_trans :
    ∀ as bs cs, pyStrLeAux as bs = true → pyStrLeAux bs cs = true →
      pyStrLeAux as cs = true
  | [], _, _, _, _ => rfl
  | _ :: _, [], _, h1, _ => by simp [pyStrLeAux] at h1
  | _ :: _, _ :: _, [], _, h2 => by simp [pyStrLeAux] at h2
  | a :: as, b :: bs, c :: cs, h1, h2 => by
    by_cases hab : a = b
    · subst hab
      by_cases hbc : a = c
      · subst hbc
        simp only [pyStrLeAux, if_pos rfl] at h1 h2 ⊢
        exact pyStrLeAux_trans as bs cs h1 h2
      · simp only [pyStrLeAux, if_pos rfl, if_neg hbc] at h1 h2 ⊢
        exact h2
    · by_cases hbc : b = c
      · subst hbc
        simp only [pyStrLeAux, if_neg hab] at h1 ⊢
        exact h1
      · have hlt1 : a.toNat < b.toNat :=
          of_decide_eq_true (by simpa [pyStrLeAux, hab] using h1)
        have hlt2 : b.toNat < c.toNat :=
          of_decide_eq_true (by simpa [pyStrLeAux, hbc] using h2)
        have hlt : a.toNat < c.toNat := Nat.lt_trans hlt1 hlt2
        have hac : a ≠ c := fun he => absurd (he ▸ hlt) (Nat.lt_irrefl _)
        simp [pyStrLeAux, hac, hlt]

theorem mem_pySortedSet (x : String) (xs : List String) :
    x ∈ pySortedSet xs ↔ x ∈ xs := by
  unfold pySortedSet
  rw [List.mem_insertionSort, List.mem_dedup]

theorem pySortedSet_nodup (xs : List String) : (pySortedSet xs).Nodup :=
  (List.perm_insertionSort pyLe xs.dedup).symm.nodup (List.nodup_dedup xs)

theorem pySortedSet_sorted (xs : List String) :
    (pySortedSet xs).Pairwise pyLe := by
  have htot : IsTotal String pyLe :=
    ⟨fun a b => pyStrLeAux_total a.data b.data⟩
  have htrans : IsTrans String pyLe :=
    ⟨fun a b c => pyStrLeAux_trans a.data b.data c.data⟩
  exact @List.sorted_insertionSort String pyLe decPyLe htot htrans xs.dedup

/-! ### Helper lemmas: masking -/

theorem zip_filterMap_mask_length :
    ∀ (xs ys : List Elem), xs.length = ys.length →
    ((xs.zip ys).filterMap
      (fun p => if p.2 = Elem.eBool true then some p.1 else none)).length
      = (ys.filter (fun e => e = Elem.eBool true)).length
  | [], [], _ => rfl
  | [], _ :: _, h => by simp at h
  | _ :: _, [], h => by simp at h
  | x :: xs, y :: ys, h => by
    have hrec := zip_filterMap_mask_length xs ys (by simpa using h)
    by_cases hy : y = Elem.eBool true
    · simpa [List.zip_cons_cons, List.filterMap_cons, List.filter_cons, hy]
        using hrec
    · simpa [List.zip_cons_cons, List.filterMap_cons, List.filter_cons, hy]
        using hrec

theorem applyMask_length (a mask : DArray)
    (h : a.data.length = mask.data.length) :
    (applyMask a mask).data.length = mask.countTrue :=
  zip_filterMap_mask_length a.data mask.data h

theorem countTrue_replicate_false (n : Nat) (dt : DType) :
    DArray.countTrue { dtype := dt, data := List.replicate n (Elem.eBool false) }
      = 0 := by
  simp [DArray.countTrue]

/-! ### Helper lemmas: the column registry -/

theorem scanMembers_isSome_of_mem (members : List (String × MemberVal))
    (x : String) (h : x ∈ members.filterMap memberColName) :
    (scanMembers members x).isSome := by
  induction members with
  | nil => simp at h
  | cons kv rest ih =>
    obtain ⟨key, mv⟩ := kv
    cases mv with
    | plain =>
      simp only [List.filterMap_cons, memberColName] at h
      exact ih h
    | columnGetter n g =>
      simp only [List.filterMap_cons, memberColName, List.mem_cons] at h
      by_cases hn : n = x
      · simp [scanMembers, hn]
      · rcases h with h | h
        · exact absurd h.symm hn
        · simpa [scanMembers, hn] using ih h

theorem mem_find_columns_bases :
    ∀ (bs : PyClassList) (x : String),
    x ∈ find_columns_bases bs ↔ ∃ b ∈ bs.toList, x ∈ find_columns b
  | .nil, x => by simp [find_columns_bases, PyClassList.toList]
  | .cons b rest, x => by
    simp only [find_columns_bases, List.mem_append,
      mem_find_columns_bases rest x, PyClassList.toList, List.mem_cons]
    constructor
    · rintro (h | ⟨b₀, hb₀, hx⟩)
      · exact ⟨b, Or.inl rfl, h⟩
      · exact ⟨b₀, Or.inr hb₀, hx⟩
    · rintro ⟨b₀, hb₀ | hb₀, hx⟩
      · subst hb₀; exact Or.inl hx
      · exact Or.inr ⟨b₀, hb₀, hx⟩

mutual

theorem find_column_isSome_of_mem :
    ∀ (cls : PyClass) (x : String),
    x ∈ find_columns cls → (find_column cls x).isSome
  | .mk members bases, x, h => by
    rw [show find_columns (.mk members bases)
        = pySortedSet (members.filterMap memberColName
            ++ find_columns_bases bases) from rfl] at h
    rw [show find_column (.mk members bases) x
        = (match scanMembers members x with
           | some g => some g
           | none => find_column_bases bases x) from rfl]
    rcases List.mem_append.1 ((mem_pySortedSet _ _).1 h) with hm | hb
    · have hs := scanMembers_isSome_of_mem members x hm
      cases hsc : scanMembers members x with
      | some g => simp
      | none => rw [hsc] at hs; simp at hs
    · have hs := find_column_bases_isSome_of_mem bases x hb
      cases hsc : scanMembers members x with
      | some g => simp
      | none => simpa using hs

theorem find_column_bases_isSome_of_mem :
    ∀ (bs : PyClassList) (x : String),
    x ∈ find_columns_bases bs → (find_column_bases bs x).isSome
  | .nil, x, h => by simp [find_columns_bases] at h
  | .cons b bs, x, h => by
    rw [show find_columns_bases (.cons b bs)
        = find_columns b ++ find_columns_bases bs from rfl] at h
    rw [show find_column_bases (.cons b bs) x
        = (match find_column b x with
           | some g => some g
           | none => find_column_bases bs x) from rfl]
    rcases List.mem_append.1 h with h1 | h2
    · have hs := find_column_isSome_of_mem b x h1
      cases hc : find_column b x with
      | some g => simp
      | none => rw [hc] at hs; simp at hs
    · cases hc : find_column b x with
      | some g => simp
      | none => simpa using find_column_bases_isSome_of_mem bs x h2

end

/-! ### Helper lemmas: column access and construction -/

theorem getItem_ok_of_mem_columns (c : Catalog) (n : Nat) (col : String)
    (hsz : c.size = some n) (hov : c.OverridesSized n)
    (hmem : col ∈ c.columns) :
    ∃ arr : DArray, c.getItem col = .ok ⟨c, arr, []⟩ ∧ arr.data.length = n := by
  unfold Catalog.columns at hmem
  cases hl : c.overrides.lookup col with
  | some r =>
    refine ⟨r, ?_, hov (col, r) (lookup_mem hl)⟩
    simp [Catalog.getItem, hl]
  | none =>
    have hkeys : col ∉ dictKeys c.overrides := by
      rw [mem_dictKeys_iff_lookup_isSome, hl]; simp
    have hhard : col ∈ c.hardcolumns := by
      rcases List.mem_append.1 ((mem_pySortedSet _ _).1 hmem) with h | h
      · exact h
      · exact absurd h hkeys
    obtain ⟨g, hg⟩ := Option.isSome_iff_exists.1
      (find_column_isSome_of_mem c.cls col hhard)
    cases g with
    | constantArray v =>
      refine ⟨ConstantArray v n, ?_, by simp [ConstantArray]⟩
      simp [Catalog.getItem, hl, hhard, Catalog.get_hardcolumn, hg,
        applyGetter, hsz, Except.map]

theorem subsetData_ok (c : Catalog) (index : DArray) (n : Nat)
    (hsz : c.size = some n) (hov : c.OverridesSized n)
    (hlen : index.data.length = n) :
    ∀ cols : List String, (∀ col ∈ cols, col ∈ c.columns) →
    ∃ data, subsetData c index cols = .ok data ∧
      data.map Prod.fst = cols ∧
      ∀ p ∈ data, (Prod.snd p).data.length = index.countTrue := by
  intro cols
  induction cols with
  | nil => exact fun _ => ⟨[], rfl, rfl, by simp⟩
  | cons col rest ih =>
    intro hmem
    obtain ⟨arr, harr, hlenA⟩ := getItem_ok_of_mem_columns c n col hsz hov
      (hmem col (List.mem_cons_self _ _))
    obtain ⟨tail, htail, hkeys, hlens⟩ :=
      ih (fun x hx => hmem x (List.mem_cons_of_mem _ hx))
    refine ⟨(col, applyMask arr index) :: tail, ?_, by simp [hkeys], ?_⟩
    · simp only [subsetData, harr, htail]; rfl
    · intro p hp
      rcases List.mem_cons.1 hp with h | h
      · subst h; exact applyMask_length arr index (by rw [hlenA, hlen])
      · exact hlens p h

theorem copyData_ok (c : Catalog) (n : Nat)
    (hsz : c.size = some n) (hov : c.OverridesSized n) :
    ∀ cols : List String, (∀ col ∈ cols, col ∈ c.columns) →
    ∃ data, copyData c cols = .ok data ∧
      data.map Prod.fst = cols ∧
      ∀ p ∈ data, (Prod.snd p).data.length = n := by
  intro cols
  induction cols with
  | nil => exact fun _ => ⟨[], rfl, rfl, by simp⟩
  | cons col rest ih =>
    intro hmem
    obtain ⟨arr, harr, hlenA⟩ := getItem_ok_of_mem_columns c n col hsz hov
      (hmem col (List.mem_cons_self _ _))
    obtain ⟨tail, htail, hkeys, hlens⟩ :=
      ih (fun x hx => hmem x (List.mem_cons_of_mem _ hx))
    refine ⟨(col, arr) :: tail, ?_, by simp [hkeys], ?_⟩
    · simp only [copyData, harr, htail]; rfl
    · intro p hp
      rcases List.mem_cons.1 hp with h | h
      · subst h; exact hlenA
      · exact hlens p h

theorem mem_dictSet {α : Type} {d : List (String × α)} {k : String} {v : α}
    {q : String × α} (h : q ∈ dictSet d k v) : q = (k, v) ∨ q ∈ d := by
  induction d with
  | nil => simpa [dictSet] using h
  | cons p rest ih =>
    obtain ⟨k₀, v₀⟩ := p
    by_cases hk : k₀ = k
    · rcases List.mem_cons.1 (by simpa [dictSet, hk] using h) with h₁ | h₁
      · exact Or.inl h₁
      · exact Or.inr (List.mem_cons_of_mem _ h₁)
    · rcases List.mem_cons.1 (by simpa [dictSet, hk] using h) with h₁ | h₁
      · exact Or.inr (by simp [h₁])
      · rcases ih h₁ with h₂ | h₂
        · exact Or.inl h₂
        · exact Or.inr (List.mem_cons_of_mem _ h₂)

theorem setColumnsE_ok (s : Nat) :
    ∀ (data : List (String × DArray)) (c : Catalog),
    c.size = some s → c.OverridesSized s →
    (∀ p ∈ data, (Prod.snd p).data.length = s) →
    ∃ c2, setColumnsE c data = .ok c2 ∧
      c2.size = some s ∧ c2.cls = c.cls ∧ c2.attrsRef = c.attrsRef ∧
      c2.OverridesSized s ∧
      (∀ x, x ∈ dictKeys c2.overrides ↔
        x ∈ data.map Prod.fst ∨ x ∈ dictKeys c.overrides) := by
  intro data
  induction data with
  | nil =>
    intro c hsz hov _
    exact ⟨c, rfl, hsz, rfl, rfl, hov, by simp⟩
  | cons p rest ih =>
    intro c hsz hov hlen
    obtain ⟨name, a⟩ := p
    have ha : a.data.length = s := hlen (name, a) (List.mem_cons_self _ _)
    have hset : CatalogSource.setItem c name (.array a)
        = (none, c.baseSetItem name a) := by
      simp [CatalogSource.setItem, hsz, ha]
    have hov1 : (c.baseSetItem name a).OverridesSized s := by
      intro q hq
      rcases mem_dictSet (by simpa [Catalog.baseSetItem, make_column] using hq)
        with h₁ | h₁
      · rw [h₁]; exact ha
      · exact hov q h₁
    obtain ⟨c2, hc2, hsz2, hcls2, href2, hov2, hkeys2⟩ :=
      ih (c.baseSetItem name a) hsz hov1
        (fun q hq => hlen q (List.mem_cons_of_mem _ hq))
    refine ⟨c2, ?_, hsz2, hcls2, href2, hov2, ?_⟩
    · simp [setColumnsE, hset, hc2]
    · intro x
      rw [hkeys2 x]
      simp only [Catalog.baseSetItem, make_column, List.map_cons,
        List.mem_cons, mem_dictKeys_dictSet]
      tauto

theorem from_columns_ok (st : Store) (s : Nat) (comm : Comm) (uc : Bool)
    (data : List (String × DArray))
    (hd : ∀ p ∈ data, (Prod.snd p).data.length = s) :
    ∃ c2, CatalogSource.from_columns st (some s) comm uc data
        = .ok (st ++ [[]], c2) ∧
      c2.size = some s ∧ c2.cls = CatalogSourceCls ∧
      c2.attrsRef = st.length ∧ c2.OverridesSized s ∧
      (∀ x, x ∈ dictKeys c2.overrides ↔ x ∈ data.map Prod.fst) := by
  obtain ⟨c2, hc2, hsz2, hcls2, href2, hov2, hkeys2⟩ :=
    setColumnsE_ok s data
      { cls := CatalogSourceCls, size := some s,
        csize := some (comm.allreduceSum s), overrides := [],
        attrsRef := st.length, use_cache := uc, comm := comm }
      rfl (fun _ h => by simp at h) hd
  refine ⟨c2, ?_, hsz2, hcls2, href2, hov2,
    fun x => by simpa [dictKeys] using hkeys2 x⟩
  simp only [CatalogSource.from_columns, Catalog.update_csize]
  rw [hc2]

/-! ### Inversion lemmas for the derived-view operations -/

theorem setItem_snd_cases (c : Catalog) (col : String) (v : SetValue) :
    (CatalogSource.setItem c col v).2 = c ∨
    ∃ a, (CatalogSource.setItem c col v).2 = c.baseSetItem col a := by
  unfold CatalogSource.setItem
  cases v with
  | scalar s =>
    cases hsz : c.size with
    | none => exact Or.inl rfl
    | some n =>
      by_cases h : (ConstantArray s n).data.length = n
      · exact Or.inr ⟨ConstantArray s n, by simp [h]⟩
      · exact Or.inl (by simp [h])
  | array a =>
    cases hsz : c.size with
    | none => exact Or.inr ⟨a, rfl⟩
    | some n =>
      by_cases h : a.data.length = n
      · exact Or.inr ⟨a, by simp [h]⟩
      · exact Or.inl (by simp [h])

theorem setItem_attrsRef (c : Catalog) (col : String) (v : SetValue) :
    (CatalogSource.setItem c col v).2.attrsRef = c.attrsRef := by
  rcases setItem_snd_cases c col v with h | ⟨a, h⟩ <;>
    simp [h, Catalog.baseSetItem]

theorem setColumnsE_attrsRef :
    ∀ (data : List (String × DArray)) (c c2 : Catalog),
    setColumnsE c data = .ok c2 → c2.attrsRef = c.attrsRef
  | [], c, c2, h => by
    simp only [setColumnsE] at h
    cases h
    rfl
  | (name, a) :: rest, c, c2, h => by
    rw [show setColumnsE c ((name, a) :: rest)
        = (match CatalogSource.setItem c name (.array a) with
           | (none, next) => setColumnsE next rest
           | (some e, _) => .error e) from rfl] at h
    cases hs : CatalogSource.setItem c name (.array a) with
    | mk e next =>
      rw [hs] at h
      cases e with
      | none =>
        have h1 := setColumnsE_attrsRef rest next c2 h
        have h2 : next.attrsRef = c.attrsRef := by
          have := setItem_attrsRef c name (.array a)
          rwa [hs] at this
        rw [h1, h2]
      | some e => simp at h

theorem from_columns_inv (st : Store) (size : Option Nat) (comm : Comm)
    (uc : Bool) (data : List (String × DArray)) (st1 : Store) (c2 : Catalog)
    (h : CatalogSource.from_columns st size comm uc data = .ok (st1, c2)) :
    st1 = st ++ [[]] ∧ c2.attrsRef = st.length := by
  unfold CatalogSource.from_columns at h
  cases size with
  | none =>
    simp only at h
    cases hset : setColumnsE
        { cls := CatalogSourceCls, size := none, csize := none,
          overrides := [], attrsRef := st.length, use_cache := uc,
          comm := comm } data with
    | error e => rw [hset] at h; simp at h
    | ok c3 =>
      rw [hset] at h
      simp only [Except.ok.injEq, Prod.mk.injEq] at h
      obtain ⟨h1, h2⟩ := h
      exact ⟨h1.symm, h2 ▸ setColumnsE_attrsRef data _ c3 hset⟩
  | some s =>
    simp only [Catalog.update_csize] at h
    cases hset : setColumnsE
        { cls := CatalogSourceCls, size := some s,
          csize := some (comm.allreduceSum s), overrides := [],
          attrsRef := st.length, use_cache := uc, comm := comm } data with
    | error e => rw [hset] at h; simp at h
    | ok c3 =>
      rw [hset] at h
      simp only [Except.ok.injEq, Prod.mk.injEq] at h
      obtain ⟨h1, h2⟩ := h
      exact ⟨h1.symm, h2 ▸ setColumnsE_attrsRef data _ c3 hset⟩

theorem get_catalog_subset_inv (st : Store) (c : Catalog) (idx : DArray)
    (stF : Store) (sub : Catalog)
    (h : get_catalog_subset st c idx = .ok (stF, sub)) :
    sub.attrsRef = st.length ∧
    stF = attrsUpdate (st ++ [[]]) sub (storeGet (st ++ [[]]) c.attrsRef) := by
  unfold get_catalog_subset at h
  cases hsz : c.size with
  | none => rw [hsz] at h; simp at h
  | some n =>
    simp only [hsz] at h
    split at h
    · simp at h
    split at h
    · simp at h
    cases hdata : subsetData c idx c.columns with
    | error e =>
      rw [hdata] at h
      exact absurd (show (Except.error e : Except Err (Store × Catalog))
        = Except.ok (stF, sub) from h) (by simp)
    | ok data =>
      rw [hdata] at h
      have h' : (CatalogSource.from_columns st (some idx.countTrue) c.comm
            c.use_cache data >>= fun p =>
            Except.ok (attrsUpdate p.1 p.2 (storeGet p.1 c.attrsRef), p.2))
          = Except.ok (stF, sub) := h
      cases hfc : CatalogSource.from_columns st (some idx.countTrue) c.comm
          c.use_cache data with
      | error e =>
        rw [hfc] at h'
        exact absurd (show (Except.error e : Except Err (Store × Catalog))
          = Except.ok (stF, sub) from h') (by simp)
      | ok pair =>
        obtain ⟨st1, toret⟩ := pair
        rw [hfc] at h'
        obtain ⟨hst1, href⟩ := from_columns_inv st _ c.comm c.use_cache data
          st1 toret hfc
        have h2 :
            (Except.ok (attrsUpdate st1 toret (storeGet st1 c.attrsRef),
              toret) : Except Err (Store × Catalog))
            = Except.ok (stF, sub) := h'
        have h3 := Except.ok.inj h2
        have hA := congrArg Prod.fst h3
        have hB := congrArg Prod.snd h3
        simp only at hA hB
        subst hB
        subst hst1
        exact ⟨href, hA.symm⟩

theorem copy_inv (st : Store) (c : Catalog) (stF : Store) (sub : Catalog)
    (h : CatalogSource.copy st c = .ok (stF, .catalog sub)) :
    sub.attrsRef = st.length ∧
    stF = attrsUpdate (st ++ [[]]) sub (storeGet (st ++ [[]]) c.attrsRef) := by
  unfold CatalogSource.copy at h
  cases hsz : c.size with
  | none => rw [hsz] at h; simp at h
  | some n =>
    simp only [hsz] at h
    cases hdata : copyData c c.columns with
    | error e =>
      rw [hdata] at h
      exact absurd (show (Except.error e : Except Err (Store × CopyResult))
        = Except.ok (stF, .catalog sub) from h) (by simp)
    | ok data =>
      rw [hdata] at h
      have h' : (CatalogSource.from_columns st (some n) c.comm
            c.use_cache data >>= fun p =>
            Except.ok (attrsUpdate p.1 p.2 (storeGet p.1 c.attrsRef),
              CopyResult.catalog p.2))
          = Except.ok (stF, .catalog sub) := h
      cases hfc : CatalogSource.from_columns st (some n) c.comm
          c.use_cache data with
      | error e =>
        rw [hfc] at h'
        exact absurd (show (Except.error e : Except Err (Store × CopyResult))
          = Except.ok (stF, .catalog sub) from h') (by simp)
      | ok pair =>
        obtain ⟨st1, toret⟩ := pair
        rw [hfc] at h'
        obtain ⟨hst1, href⟩ := from_columns_inv st _ c.comm c.use_cache data
          st1 toret hfc
        have h2 :
            (Except.ok (attrsUpdate st1 toret (storeGet st1 c.attrsRef),
              CopyResult.catalog toret) : Except Err (Store × CopyResult))
            = Except.ok (stF, .catalog sub) := h'
        have h3 := Except.ok.inj h2
        have hA := congrArg Prod.fst h3
        have hB := congrArg Prod.snd h3
        simp only at hA hB
        have hB2 : toret = sub := by injection hB
        subst hB2
        subst hst1
        exact ⟨href, hA.symm⟩

theorem getItemColumns_inv (st : Store) (c : Catalog) (sel : List String)
    (stF : Store) (sub : Catalog)
    (h : Catalog.getItemColumns st c sel = .ok (stF, sub)) :
    sub.attrsRef = st.length ∧
    stF = attrsUpdate (st ++ [[]]) sub (storeGet (st ++ [[]]) c.attrsRef) := by
  simp only [Catalog.getItemColumns] at h
  split at h
  case isFalse => simp at h
  case isTrue hinv =>
    cases hdata : copyData c sel with
    | error e =>
      rw [hdata] at h
      exact absurd (show (Except.error e : Except Err (Store × Catalog))
        = Except.ok (stF, sub) from h) (by simp)
    | ok data =>
      rw [hdata] at h
      have h' : (CatalogSource.from_columns st c.size c.comm
            c.use_cache data >>= fun p =>
            Except.ok (attrsUpdate p.1 p.2 (storeGet p.1 c.attrsRef), p.2))
          = Except.ok (stF, sub) := h
      cases hfc : CatalogSource.from_columns st c.size c.comm
          c.use_cache data with
      | error e =>
        rw [hfc] at h'
        exact absurd (show (Except.error e : Except Err (Store × Catalog))
          = Except.ok (stF, sub) from h') (by simp)
      | ok pair =>
        obtain ⟨st1, toret⟩ := pair
        rw [hfc] at h'
        obtain ⟨hst1, href⟩ := from_columns_inv st _ c.comm c.use_cache data
          st1 toret hfc
        have h2 :
            (Except.ok (attrsUpdate st1 toret (storeGet st1 c.attrsRef),
              toret) : Except Err (Store × Catalog))
            = Except.ok (stF, sub) := h'
        have h3 := Except.ok.inj h2
        have hA := congrArg Prod.fst h3
        have hB := congrArg Prod.snd h3
        simp only at hA hB
        subst hB
        subst hst1
        exact ⟨href, hA.symm⟩

/-! ### Attribute-store independence lemmas -/

theorem attrsLookup_attrsSetKey_ne (st : Store) (a b : Catalog) (k k2 : String)
    (v : AttrVal) (h : a.attrsRef ≠ b.attrsRef) :
    attrsLookup (attrsSetKey st a k v) b k2 = attrsLookup st b k2 := by
  unfold attrsLookup attrsSetKey storeGet storeSet
  rw [List.getD_eq_getElem?_getD, List.getD_eq_getElem?_getD,
    List.getElem?_set_ne h, ← List.getD_eq_getElem?_getD]

theorem derived_attrs_content (st stF : Store) (c sub : Catalog)
    (hlt : c.attrsRef < st.length)
    (hnd : (dictKeys (storeGet st c.attrsRef)).Nodup)
    (hsub : sub.attrsRef = st.length)
    (hstF : stF = attrsUpdate (st ++ [[]]) sub
      (storeGet (st ++ [[]]) c.attrsRef)) :
    ∀ k, attrsLookup stF sub k = attrsLookup st c k := by
  intro k
  have hpm : storeGet (st ++ [[]]) c.attrsRef = storeGet st c.attrsRef := by
    unfold storeGet
    rw [List.getD_eq_getElem?_getD, List.getD_eq_getElem?_getD,
      List.getElem?_append_left hlt]
  have hempty : storeGet (st ++ [[]]) sub.attrsRef = [] := by
    unfold storeGet
    rw [hsub, List.getD_eq_getElem?_getD, List.getElem?_concat_length]
    rfl
  have hsubLt : sub.attrsRef < (st ++ [[]]).length := by
    simp [hsub]
  have hstFsub : storeGet stF sub.attrsRef
      = dictUpdate [] (storeGet st c.attrsRef) := by
    rw [hstF]
    unfold attrsUpdate storeSet
    show ((st ++ [[]]).set sub.attrsRef _).getD sub.attrsRef [] = _
    rw [List.getD_eq_getElem?_getD, List.getElem?_set_self hsubLt]
    rw [hempty, hpm]
    rfl
  unfold attrsLookup
  rw [hstFsub, lookup_dictUpdate]
  simp only [List.lookup, Option.or_none]
  exact lookup_reverse_of_nodupKeys _ hnd k

/-- The success path of `get_catalog_subset` under the validation
preconditions: the new size is the `True` count and the result holds
exactly the parent's visible columns as overrides. -/
theorem get_catalog_subset_ok (st : Store) (c : Catalog) (m : DArray) (n : Nat)
    (hsz : c.size = some n) (hov : c.OverridesSized n)
    (hlen : m.data.length = n) (hb : m.dtype = DType.boolDT) :
    ∃ stF sub, get_catalog_subset st c m = .ok (stF, sub) ∧
      sub.size = some m.countTrue ∧ sub.cls = CatalogSourceCls ∧
      (∀ x, x ∈ dictKeys sub.overrides ↔ x ∈ c.columns) := by
  obtain ⟨data, hdata, hkeys, hlens⟩ :=
    subsetData_ok c m n hsz hov hlen c.columns (fun _ h => h)
  obtain ⟨c2, hc2, hsz2, hcls2, _, _, hkeys2⟩ :=
    from_columns_ok st m.countTrue c.comm c.use_cache data hlens
  have heq : get_catalog_subset st c m
      = .ok (attrsUpdate (st ++ [[]]) c2 (storeGet (st ++ [[]]) c.attrsRef),
          c2) := by
    unfold get_catalog_subset
    simp only [hsz]
    rw [if_neg (by simp [hlen]), if_neg (by simp [hb])]
    rw [hdata]
    show (CatalogSource.from_columns st (some m.countTrue) c.comm
        c.use_cache data >>= fun p =>
        Except.ok (attrsUpdate p.1 p.2 (storeGet p.1 c.attrsRef), p.2)) = _
    rw [hc2]
    rfl
  exact ⟨_, c2, heq, hsz2, hcls2, fun x => by rw [hkeys2 x, hkeys]⟩

/-! ### The claims -/

/-- C1: for every catalog `C` with known `local_size` and every boolean mask
`m` whose length equals `C.local_size` (with `C` satisfying the class
invariant that its override columns have that length), the catalog returned
by `get_catalog_subset(C, m)` has `local_size` equal to the number of `True`
entries of `m`. -/
theorem subset_local_size_eq_countTrue (st : Store) (c : Catalog)
    (m : DArray) (n : Nat) (hsz : c.size = some n) (hov : c.OverridesSized n)
    (hlen : m.data.length = n) (hb : m.dtype = DType.boolDT) :
    ∃ stF sub, get_catalog_subset st c m = .ok (stF, sub) ∧
      sub.size = some m.countTrue := by
  obtain ⟨stF, sub, h1, h2, -, -⟩ :=
    get_catalog_subset_ok st c m n hsz hov hlen hb
  exact ⟨stF, sub, h1, h2⟩

/-- C1 witness: subsetting the concrete two-row catalog with the concrete
mask `[True, False]` yields local size `1`. -/
theorem subset_local_size_eq_countTrue_witness :
    ∃ stF sub, get_catalog_subset testStore testCat testMask
        = .ok (stF, sub) ∧ sub.size = some testMask.countTrue :=
  subset_local_size_eq_countTrue testStore testCat testMask 2 rfl
    (by decide) rfl rfl

/-- C6: on a catalog of known local size, an index whose length differs
from the local size fails with the length-mismatch `ValueError`; an index
of the right length whose (forced) element dtype is not boolean fails with
the boolean-dtype `ValueError`; under the two preconditions (plus the class
invariant on override lengths) the subset operation succeeds with neither
error. -/
theorem subset_validation_errors (st : Store) (c : Catalog) (m : DArray)
    (n : Nat) (hsz : c.size = some n) :
    (m.data.length ≠ n → get_catalog_subset st c m
      = .error (.valueError ("slice index has length "
          ++ toString m.data.length ++ "; should be " ++ toString n))) ∧
    (m.data.length = n → m.dtype ≠ DType.boolDT → get_catalog_subset st c m
      = .error (.valueError
          "index used to slice CatalogSource must be boolean and array-like")) ∧
    (m.data.length = n → m.dtype = DType.boolDT → c.OverridesSized n →
      ∃ stF sub, get_catalog_subset st c m = .ok (stF, sub)) := by
  refine ⟨?_, ?_, ?_⟩
  · intro h
    unfold get_catalog_subset
    simp only [hsz]
    rw [if_pos h]
  · intro h1 h2
    unfold get_catalog_subset
    simp only [hsz]
    rw [if_neg (by simp [h1]), if_pos h2]
  · intro h1 h2 hov
    obtain ⟨stF, sub, hh, -, -, -⟩ :=
      get_catalog_subset_ok st c m n hsz hov h1 h2
    exact ⟨stF, sub, hh⟩

/-- C6 witness: a length-1 mask on the two-row catalog raises the
length-mismatch `ValueError`, and a length-2 integer index raises the
boolean-dtype `ValueError`. -/
theorem subset_validation_errors_witness :
    get_catalog_subset testStore testCat shortMask
      = .error (.valueError ("slice index has length "
          ++ toString shortMask.data.length ++ "; should be "
          ++ toString 2)) ∧
    get_catalog_subset testStore testCat
        { dtype := DType.intDT, data := [Elem.eInt 1, Elem.eInt 0] }
      = .error (.valueError
          "index used to slice CatalogSource must be boolean and array-like") :=
  ⟨(subset_validation_errors testStore testCat shortMask 2 rfl).1 (by decide),
   (subset_validation_errors testStore testCat
      { dtype := DType.intDT, data := [Elem.eInt 1, Elem.eInt 0] } 2
      rfl).2.1 rfl (by decide)⟩

/-- C7: subsetting a catalog of known local size with an all-`False`
boolean index of that length succeeds and yields a valid catalog of local
size `0`, and every column of the parent is present on the zero-size
result. -/
theorem subset_all_false_yields_empty (st : Store) (c : Catalog) (n : Nat)
    (m : DArray) (hsz : c.size = some n) (hov : c.OverridesSized n)
    (hm : m = { dtype := DType.boolDT,
                data := List.replicate n (Elem.eBool false) }) :
    ∃ stF sub, get_catalog_subset st c m = .ok (stF, sub) ∧
      sub.size = some 0 ∧ ∀ col ∈ c.columns, col ∈ sub.columns := by
  subst hm
  obtain ⟨stF, sub, h1, h2, hcls, hkeys⟩ :=
    get_catalog_subset_ok st c
      { dtype := DType.boolDT, data := List.replicate n (Elem.eBool false) }
      n hsz hov (List.length_replicate n (Elem.eBool false)) rfl
  refine ⟨stF, sub, h1, ?_, ?_⟩
  · rw [h2, countTrue_replicate_false]
  · intro col hc
    unfold Catalog.columns
    rw [mem_pySortedSet]
    exact List.mem_append.2 (Or.inr ((hkeys col).2 hc))

/-- C7 witness: the all-`False` mask of length 2 on the concrete two-row
catalog succeeds with local size `0`. -/
theorem subset_all_false_yields_empty_witness :
    ∃ stF sub, get_catalog_subset testStore testCat
        { dtype := DType.boolDT,
          data := [Elem.eBool false, Elem.eBool false] } = .ok (stF, sub) ∧
      sub.size = some 0 ∧ ∀ col ∈ testCat.columns, col ∈ sub.columns :=
  subset_all_false_yields_empty testStore testCat 2
    { dtype := DType.boolDT, data := [Elem.eBool false, Elem.eBool false] }
    rfl (by decide) rfl

/-- C2: a successful `set(name, v)` always writes into the override map,
unconditionally shadowing any same-named hard column: afterwards the
override map maps the name to exactly `v`, and `get(name)` resolves to the
override exclusively, returning an accessor that materializes to exactly
`v` — never the hard-column default. -/
theorem set_overrides_shadow_hard (c c2 : Catalog) (name : String)
    (a : DArray)
    (h : CatalogSource.setItem c name (.array a) = (none, c2)) :
    c2.overrides.lookup name = some a ∧
    c2.getItem name = .ok { catalog := c2, arr := a, attrs := [] } ∧
    ∀ acc : ColumnAccessor, c2.getItem name = .ok acc → acc.computeIt = a := by
  have hc2 : c2 = c.baseSetItem name a := by
    unfold CatalogSource.setItem at h
    cases hsz : c.size with
    | none =>
      simp only [hsz] at h
      exact (congrArg Prod.snd h).symm
    | some n =>
      simp only [hsz] at h
      split at h
      · exact (congrArg Prod.snd h).symm
      · exact absurd (congrArg Prod.fst h) (by simp)
  subst hc2
  have hl : (c.baseSetItem name a).overrides.lookup name = some a :=
    lookup_dictSet_self c.overrides name (make_column a)
  have hget : (c.baseSetItem name a).getItem name
      = .ok { catalog := c.baseSetItem name a, arr := a, attrs := [] } := by
    simp [Catalog.getItem, hl]
  refine ⟨hl, hget, ?_⟩
  intro acc hacc
  have hacc2 : acc
      = { catalog := c.baseSetItem name a, arr := a, attrs := [] } :=
    (Except.ok.inj (hget.symm.trans hacc)).symm
  rw [hacc2]
  rfl

/-- C2 witness: setting `"Weight"` (a hard column) to a concrete integer
array on the concrete catalog stores it in the override map. -/
theorem set_overrides_shadow_hard_witness :
    (CatalogSource.setItem testCat "Weight"
      (.array wArr)).2.overrides.lookup "Weight" = some wArr :=
  (set_overrides_shadow_hard testCat
    (CatalogSource.setItem testCat "Weight" (SetValue.array wArr)).2
    "Weight" wArr rfl).1

/-- C3: assigning a scalar on a catalog of known local size broadcasts it
to a constant-array handle of that length, so getting the column
materializes to the scalar repeated `local_size` times; assigning a scalar
on a catalog whose size is `NotImplemented` fails (assertion error) and
leaves the catalog unchanged. -/
theorem set_scalar_broadcasts (c : Catalog) (name : String) (v : Elem) :
    (∀ n, c.size = some n →
      ∃ c2, CatalogSource.setItem c name (.scalar v) = (none, c2) ∧
        c2.getItem name
          = .ok { catalog := c2, arr := ConstantArray v n, attrs := [] } ∧
        (ConstantArray v n).data = List.replicate n v) ∧
    (c.size = none →
      CatalogSource.setItem c name (.scalar v)
        = (some (.assertionError
            "size is not implemented! cannot set scalar array"), c)) := by
  constructor
  · intro n hsz
    have hset : CatalogSource.setItem c name (.scalar v)
        = (none, c.baseSetItem name (ConstantArray v n)) := by
      simp [CatalogSource.setItem, hsz, ConstantArray]
    refine ⟨c.baseSetItem name (ConstantArray v n), hset, ?_, rfl⟩
    have hl : (c.baseSetItem name (ConstantArray v n)).overrides.lookup name
        = some (ConstantArray v n) :=
      lookup_dictSet_self c.overrides name (make_column (ConstantArray v n))
    simp [Catalog.getItem, hl]
  · intro hsz
    simp [CatalogSource.setItem, hsz]

/-- C3 witness: `set("Flag", True)` on the concrete four-row catalog
materializes `get("Flag")` to `[True, True, True, True]`, and the scalar
assignment on the sizeless catalog fails. -/
theorem set_scalar_broadcasts_witness :
    ((CatalogSource.setItem testCat4 "Flag"
        (.scalar (Elem.eBool true))).2.getItem "Flag"
      = .ok { catalog := (CatalogSource.setItem testCat4 "Flag"
                (.scalar (Elem.eBool true))).2,
              arr := ConstantArray (Elem.eBool true) 4, attrs := [] }) ∧
    (ConstantArray (Elem.eBool true) 4).data
      = [Elem.eBool true, Elem.eBool true, Elem.eBool true, Elem.eBool true] ∧
    (CatalogSource.setItem testCatNoSize "Flag"
        (.scalar (Elem.eBool true))).1.isSome := by
  obtain ⟨c2, h1, h2, h3⟩ :=
    (set_scalar_broadcasts testCat4 "Flag" (Elem.eBool true)).1 4 rfl
  have h4 := (set_scalar_broadcasts testCatNoSize "Flag"
    (Elem.eBool true)).2 rfl
  refine ⟨?_, h3, ?_⟩
  · rw [h1]
    exact h2
  · rw [h4]
    rfl

/-- C8: getting a name that is neither a key of the override map nor a
hard column of the catalog's type fails with the `KeyError`; a name in one
of the two sources succeeds and returns a column accessor (the local size
is known, so hard-column getters can be evaluated). -/
theorem get_unknown_column (c : Catalog) (name : String) (n : Nat)
    (hsz : c.size = some n) :
    (name ∉ dictKeys c.overrides → name ∉ c.hardcolumns →
      c.getItem name = .error (.keyError ("column " ++ name
        ++ " is not defined in this source; try adding column via source[column] = data"))) ∧
    ((name ∈ dictKeys c.overrides ∨ name ∈ c.hardcolumns) →
      ∃ acc : ColumnAccessor, c.getItem name = .ok acc) := by
  constructor
  · intro h1 h2
    have hl : c.overrides.lookup name = none := by
      cases hll : c.overrides.lookup name with
      | none => rfl
      | some r =>
        exact absurd ((mem_dictKeys_iff_lookup_isSome _ _).2
          (by simp [hll])) h1
    simp [Catalog.getItem, hl, h2]
  · intro h
    cases hll : c.overrides.lookup name with
    | some r =>
      exact ⟨{ catalog := c, arr := r, attrs := [] },
        by simp [Catalog.getItem, hll]⟩
    | none =>
      have hh : name ∈ c.hardcolumns := by
        rcases h with h | h
        · exact absurd ((mem_dictKeys_iff_lookup_isSome _ _).1 h)
            (by simp [hll])
        · exact h
      obtain ⟨g, hg⟩ := Option.isSome_iff_exists.1
        (find_column_isSome_of_mem c.cls name hh)
      cases g with
      | constantArray v =>
        exact ⟨{ catalog := c, arr := ConstantArray v n, attrs := [] },
          by simp [Catalog.getItem, hll, hh, Catalog.get_hardcolumn, hg,
            applyGetter, hsz, Except.map]⟩

/-- C8 witness: `get("DoesNotExist")` on the concrete catalog raises the
`KeyError`, while the override `"Mass"` and the hard column `"Selection"`
both resolve. -/
theorem get_unknown_column_witness :
    (testCat.getItem "DoesNotExist"
      = .error (.keyError ("column " ++ "DoesNotExist"
        ++ " is not defined in this source; try adding column via source[column] = data"))) ∧
    (∃ acc : ColumnAccessor, testCat.getItem "Mass" = .ok acc) := by
  refine ⟨?_, ?_⟩
  · exact (get_unknown_column testCat "DoesNotExist" 2 rfl).1
      (by decide) (by decide)
  · exact (get_unknown_column testCat "Mass" 2 rfl).2 (Or.inl (by decide))

/-- C9: `copy()` on a catalog whose size is `NotImplemented` does not
raise: it returns the `ValueError` exception object as the result value of
the call, so the caller receives an exception instance in place of a
catalog. -/
theorem copy_returns_exception_object (st : Store) (c : Catalog)
    (h : c.size = none) :
    CatalogSource.copy st c = .ok (st, .exceptionObject (.valueError
      "cannot copy a CatalogSource that does not have size implemented")) := by
  unfold CatalogSource.copy
  rw [h]

/-- C9 witness: copying the concrete sizeless catalog returns the
exception object. -/
theorem copy_returns_exception_object_witness :
    CatalogSource.copy testStore testCatNoSize
      = .ok (testStore, .exceptionObject (.valueError
        "cannot copy a CatalogSource that does not have size implemented")) :=
  copy_returns_exception_object testStore testCatNoSize rfl

/-- C10: `set(name, value)` is atomic on failure: if the call fails, the
catalog — in particular its override map — is left unchanged, so `name`
still maps to its prior handle or remains absent. -/
theorem set_atomic_on_failure (c : Catalog) (name : String) (v : SetValue)
    (e : Err) (h : (CatalogSource.setItem c name v).1 = some e) :
    (CatalogSource.setItem c name v).2 = c ∧
    (CatalogSource.setItem c name v).2.overrides.lookup name
      = c.overrides.lookup name := by
  have hc : (CatalogSource.setItem c name v).2 = c := by
    unfold CatalogSource.setItem at h ⊢
    cases v with
    | scalar s =>
      cases hsz : c.size with
      | none => simp only [hsz]
      | some n =>
        simp only [hsz] at h ⊢
        rw [if_pos (by simp [ConstantArray])] at h
        simp at h
    | array a =>
      cases hsz : c.size with
      | none =>
        simp only [hsz] at h
        simp at h
      | some n =>
        simp only [hsz] at h ⊢
        split at h
        · simp at h
        · next hne =>
            rw [if_neg hne]
  exact ⟨hc, by rw [hc]⟩

/-- C10 witness: a failing array assignment of the wrong length leaves the
concrete catalog unchanged. -/
theorem set_atomic_on_failure_witness :
    (CatalogSource.setItem testCat "X"
      (.array { dtype := DType.intDT, data := [Elem.eInt 1] })).2 = testCat :=
  (set_atomic_on_failure testCat "X"
    (.array { dtype := DType.intDT, data := [Elem.eInt 1] })
    (.assertionError ("error setting column, data must be array of size "
      ++ toString 2)) rfl).1

/-- C4: the enumerated column set of a catalog equals the sorted,
de-duplicated union of the statically declared hard-column names
(collected from the class dict and, recursively, all ancestor classes) and
the keys of the instance's override map; `find_columns` itself returns a
sorted, name-de-duplicated list. -/
theorem columns_sorted_union (c : Catalog) :
    c.columns.Pairwise pyLe ∧ c.columns.Nodup ∧
    (∀ x, x ∈ c.columns ↔
      x ∈ find_columns c.cls ∨ x ∈ dictKeys c.overrides) ∧
    (find_columns c.cls).Pairwise pyLe ∧ (find_columns c.cls).Nodup ∧
    (∀ x, x ∈ find_columns c.cls ↔
      x ∈ c.cls.members.filterMap memberColName ∨
      ∃ b ∈ (c.cls.bases).toList, x ∈ find_columns b) := by
  refine ⟨pySortedSet_sorted _, pySortedSet_nodup _, ?_, ?_, ?_, ?_⟩
  · intro x
    unfold Catalog.columns
    rw [mem_pySortedSet, List.mem_append]
    exact Iff.rfl
  · generalize c.cls = cl
    cases cl with
    | mk ms bs => exact pySortedSet_sorted _
  · generalize c.cls = cl
    cases cl with
    | mk ms bs => exact pySortedSet_nodup _
  · intro x
    generalize c.cls = cl
    cases cl with
    | mk ms bs =>
      rw [show find_columns (.mk ms bs)
          = pySortedSet (ms.filterMap memberColName
              ++ find_columns_bases bs) from rfl]
      rw [mem_pySortedSet, List.mem_append, mem_find_columns_bases]
      exact Iff.rfl

/-- C5: every catalog derived by subsetting, column-subsetting, or copy
carries a copy of the parent's attributes dict in a freshly allocated
dict, never the same mutable instance: the derived catalog's dict
reference differs from the parent's, its contents at creation equal the
parent's, and mutating either dict leaves lookups through the other one
unchanged. -/
theorem derived_attrs_independent (st : Store) (c : Catalog)
    (hlt : c.attrsRef < st.length)
    (hnd : (dictKeys (storeGet st c.attrsRef)).Nodup) :
    (∀ idx stF sub, get_catalog_subset st c idx = .ok (stF, sub) →
      sub.attrsRef ≠ c.attrsRef ∧
      (∀ k, attrsLookup stF sub k = attrsLookup st c k) ∧
      (∀ k v k2, attrsLookup (attrsSetKey stF sub k v) c k2
        = attrsLookup stF c k2) ∧
      (∀ k v k2, attrsLookup (attrsSetKey stF c k v) sub k2
        = attrsLookup stF sub k2)) ∧
    (∀ sel stF sub, Catalog.getItemColumns st c sel = .ok (stF, sub) →
      sub.attrsRef ≠ c.attrsRef ∧
      (∀ k, attrsLookup stF sub k = attrsLookup st c k) ∧
      (∀ k v k2, attrsLookup (attrsSetKey stF sub k v) c k2
        = attrsLookup stF c k2) ∧
      (∀ k v k2, attrsLookup (attrsSetKey stF c k v) sub k2
        = attrsLookup stF sub k2)) ∧
    (∀ stF sub, CatalogSource.copy st c = .ok (stF, .catalog sub) →
      sub.attrsRef ≠ c.attrsRef ∧
      (∀ k, attrsLookup stF sub k = attrsLookup st c k) ∧
      (∀ k v k2, attrsLookup (attrsSetKey stF sub k v) c k2
        = attrsLookup stF c k2) ∧
      (∀ k v k2, attrsLookup (attrsSetKey stF c k v) sub k2
        = attrsLookup stF sub k2)) := by
  have core : ∀ stF sub, sub.attrsRef = st.length →
      stF = attrsUpdate (st ++ [[]]) sub
        (storeGet (st ++ [[]]) c.attrsRef) →
      sub.attrsRef ≠ c.attrsRef ∧
      (∀ k, attrsLookup stF sub k = attrsLookup st c k) ∧
      (∀ k v k2, attrsLookup (attrsSetKey stF sub k v) c k2
        = attrsLookup stF c k2) ∧
      (∀ k v k2, attrsLookup (attrsSetKey stF c k v) sub k2
        = attrsLookup stF sub k2) := by
    intro stF sub hsub hstF
    have hne : sub.attrsRef ≠ c.attrsRef := by
      rw [hsub]
      exact (Nat.ne_of_lt hlt).symm
    refine ⟨hne, derived_attrs_content st stF c sub hlt hnd hsub hstF,
      ?_, ?_⟩
    · intro k v k2
      exact attrsLookup_attrsSetKey_ne stF sub c k k2 v hne
    · intro k v k2
      exact attrsLookup_attrsSetKey_ne stF c sub k k2 v (Ne.symm hne)
  refine ⟨?_, ?_, ?_⟩
  · intro idx stF sub h
    obtain ⟨h1, h2⟩ := get_catalog_subset_inv st c idx stF sub h
    exact core stF sub h1 h2
  · intro sel stF sub h
    obtain ⟨h1, h2⟩ := getItemColumns_inv st c sel stF sub h
    exact core stF sub h1 h2
  · intro stF sub h
    obtain ⟨h1, h2⟩ := copy_inv st c stF sub h
    exact core stF sub h1 h2

/-- C5 witness: the concrete subset of `testCat` holds its attributes in a
fresh dict with the parent's contents, and writing through it does not
change the parent's dict. -/
theorem derived_attrs_independent_witness :
    testSub.attrsRef ≠ testCat.attrsRef ∧
    attrsLookup testStoreF testSub "BoxSize"
      = attrsLookup testStore testCat "BoxSize" ∧
    attrsLookup (attrsSetKey testStoreF testSub "BoxSize" (.int 999))
      testCat "BoxSize" = attrsLookup testStoreF testCat "BoxSize" := by
  have h := (derived_attrs_independent testStore testCat (by decide)
    (by decide)).1 testMask testStoreF testSub rfl
  exact ⟨h.1, h.2.1 "BoxSize", h.2.2.1 "BoxSize" (.int 999) "BoxSize"⟩

end NBodyKit
